import Mathlib

/-!
The go-unique TCP command server (`tcp/unique-tcp.go`) and `unique/version.go`.

A shallow embedding of the connection handler of the `unique-tcp` server:
the command table, the timed read `readRequest`, the read / dispatch / write
loop `handleClient`, and the library functions of Go they rely on
(`strings.TrimSpace`, the `%x`, `%d` and `%s` verbs of `fmt`).

Go strings and byte slices are sequences of bytes; both are lists of
`Fin 256` here.  Everything outside the handler (the connection, the deadline
timer, the generator library) is an explicit input: the connection and the
timer are a script of read events, the generators are state-passing functions.
-/

namespace GoUnique

set_option maxRecDepth 100000

/-- One byte of a Go string or byte slice. -/
abbrev Byte := Fin 256

/-- A Go `string` (and equally a `[]byte`): a finite sequence of bytes. -/
abbrev GoString := List Byte

/-- The bytes of an ASCII string literal of the source. -/
def ascii (s : String) : GoString :=
  s.toList.map (fun c => Fin.ofNat c.toNat)

/-! ## The Go library functions the handler calls -/

namespace utf8

/-- The constant `utf8.RuneError`, the rune U+FFFD that stands for an invalid encoding. -/
def RuneError : Nat := 0xFFFD

/-- The constant `utf8.RuneSelf`: bytes below it are single-byte runes. -/
def RuneSelf : Nat := 0x80

/-- The table `first` together with `acceptRanges`: for a leading byte of a
multi-byte rune, the length of the encoding and the range its second byte
must lie in; `none` for the bytes that start no multi-byte encoding. -/
def first (b0 : Nat) : Option (Nat × Nat × Nat) :=
  if 0xC2 ≤ b0 ∧ b0 ≤ 0xDF then some (2, 0x80, 0xBF)
  else if b0 = 0xE0 then some (3, 0xA0, 0xBF)
  else if 0xE1 ≤ b0 ∧ b0 ≤ 0xEC then some (3, 0x80, 0xBF)
  else if b0 = 0xED then some (3, 0x80, 0x9F)
  else if 0xEE ≤ b0 ∧ b0 ≤ 0xEF then some (3, 0x80, 0xBF)
  else if b0 = 0xF0 then some (4, 0x90, 0xBF)
  else if 0xF1 ≤ b0 ∧ b0 ≤ 0xF3 then some (4, 0x80, 0xBF)
  else if b0 = 0xF4 then some (4, 0x80, 0x8F)
  else none

/-- A continuation byte lies in `0x80..0xBF`. -/
def isCont (b : Nat) : Bool := decide (0x80 ≤ b ∧ b ≤ 0xBF)

/-- The function `utf8.DecodeRuneInString`: the first rune of `s` and its width in bytes;
`(RuneError, 0)` on the empty string, `(RuneError, 1)` on an invalid
encoding. -/
def DecodeRuneInString : GoString → Nat × Nat
  | [] => (RuneError, 0)
  | b0 :: t =>
    if b0.val < RuneSelf then (b0.val, 1)
    else
      match first b0.val with
      | none => (RuneError, 1)
      | some (sz, lo, hi) =>
        if (b0 :: t).length < sz then (RuneError, 1)
        else
          match t with
          | [] => (RuneError, 1)
          | b1 :: t1 =>
            if b1.val < lo ∨ hi < b1.val then (RuneError, 1)
            else if sz ≤ 2 then ((b0.val % 32) * 64 + b1.val % 64, 2)
            else
              match t1 with
              | [] => (RuneError, 1)
              | b2 :: t2 =>
                if !isCont b2.val then (RuneError, 1)
                else if sz ≤ 3 then
                  ((b0.val % 16) * 4096 + (b1.val % 64) * 64 + b2.val % 64, 3)
                else
                  match t2 with
                  | [] => (RuneError, 1)
                  | b3 :: _ =>
                    if !isCont b3.val then (RuneError, 1)
                    else
                      ((b0.val % 8) * 262144 + (b1.val % 64) * 4096
                        + (b2.val % 64) * 64 + b3.val % 64, 4)

/-- The function `utf8.RuneStart`: the byte is not a continuation byte. -/
def RuneStart (b : Nat) : Bool := decide (b / 64 ≠ 2)

/-- The backward scan of `DecodeLastRuneInString`:
`for start--; start >= lim; start-- { if RuneStart(s[start]) { break } }`,
entered at `start` (already decremented once); at most `n` steps. -/
def scanBack (s : GoString) (lim : Int) : Nat → Int → Int
  | 0, start => start
  | n + 1, start =>
    if start < lim then start
    else if RuneStart (s.getD start.toNat 0).val then start
    else scanBack s lim n (start - 1)

/-- The function `utf8.DecodeLastRuneInString`: the last rune of `s` and its width. -/
def DecodeLastRuneInString (s : GoString) : Nat × Nat :=
  match s.getLast? with
  | none => (RuneError, 0)
  | some last =>
    if last.val < RuneSelf then (last.val, 1)
    else
      let stop : Int := s.length
      let lim : Int := max (stop - 4) 0
      let start := max (scanBack s lim s.length (stop - 2)) 0
      let rs := DecodeRuneInString (s.drop start.toNat)
      if start + rs.2 ≠ stop then (RuneError, 1) else rs

end utf8

namespace unicode

/-- The function `unicode.IsSpace`: the runes with the Unicode property White_Space. -/
def IsSpace (r : Nat) : Bool :=
  if r ≤ 0xFF then
    r = 0x09 ∨ r = 0x0A ∨ r = 0x0B ∨ r = 0x0C ∨ r = 0x0D ∨ r = 0x20 ∨ r = 0x85 ∨ r = 0xA0
  else
    r = 0x1680 ∨ (0x2000 ≤ r ∧ r ≤ 0x200A) ∨ r = 0x2028 ∨ r = 0x2029 ∨ r = 0x202F
      ∨ r = 0x205F ∨ r = 0x3000

end unicode

namespace strings

/-- The loop of `indexFunc`, `for i, r := range s`, at byte offset `i` with
`s` the rest of the string from there; `skip` counts the bytes of the current
rune still to step over. -/
def indexFuncLoop (f : Nat → Bool) (truth : Bool) : GoString → Nat → Nat → Option Nat
  | [], _, _ => none
  | _ :: rest, i, skip + 1 => indexFuncLoop f truth rest (i + 1) skip
  | b :: rest, i, 0 =>
    let rs := utf8.DecodeRuneInString (b :: rest)
    if f rs.1 == truth then some i else indexFuncLoop f truth rest (i + 1) (rs.2 - 1)

/-- The function `indexFunc` of package `strings`: the byte offset of the first rune `r` with `f r = truth`;
`none` is the `-1` of the source. -/
def indexFunc (s : GoString) (f : Nat → Bool) (truth : Bool) : Option Nat :=
  indexFuncLoop f truth s 0 0

/-- The loop of `lastIndexFunc`, `for i := len(s); i > 0;`, walking `i`
down by the width of the last rune of `s[0:i]`; `skip` counts the bytes of
that rune still to step over. -/
def lastIndexFuncLoop (f : Nat → Bool) (truth : Bool) (s : GoString) : Nat → Nat → Option Nat
  | 0, _ => none
  | i + 1, skip + 1 => lastIndexFuncLoop f truth s i skip
  | i + 1, 0 =>
    let rs := utf8.DecodeLastRuneInString (s.take (i + 1))
    if f rs.1 == truth then some (i + 1 - rs.2) else lastIndexFuncLoop f truth s i (rs.2 - 1)

/-- The function `lastIndexFunc` of package `strings`: the byte offset of the last rune `r` with `f r = truth`;
`none` is the `-1` of the source. -/
def lastIndexFunc (s : GoString) (f : Nat → Bool) (truth : Bool) : Option Nat :=
  lastIndexFuncLoop f truth s s.length 0

/-- The function `strings.TrimLeftFunc`: `s` from the first rune on that does not
satisfy `f`. -/
def TrimLeftFunc (s : GoString) (f : Nat → Bool) : GoString :=
  match indexFunc s f false with
  | none => []
  | some i => s.drop i

/-- The function `strings.TrimRightFunc`: `s` up to and including the last rune
that does not satisfy `f`. -/
def TrimRightFunc (s : GoString) (f : Nat → Bool) : GoString :=
  match lastIndexFunc s f false with
  | none => s.take 0
  | some i =>
    if utf8.RuneSelf ≤ (s.getD i 0).val then
      s.take (i + (utf8.DecodeRuneInString (s.drop i)).2)
    else s.take (i + 1)

/-- The function `strings.TrimFunc`: `TrimRightFunc(TrimLeftFunc(s, f), f)`. -/
def TrimFunc (s : GoString) (f : Nat → Bool) : GoString :=
  TrimRightFunc (TrimLeftFunc s f) f

/-- The function `strings.TrimSpace`: `s` without its leading and trailing white space, as
Unicode defines it (`TrimFunc(s, unicode.IsSpace)`). -/
def TrimSpace (s : GoString) : GoString :=
  TrimFunc s unicode.IsSpace

end strings

namespace fmt

/-- The digit table `ldigits` of `fmt`. -/
def ldigits : GoString := ascii "0123456789abcdef"

/-- The verb `%x` on a byte slice: two lower-case hexadecimal digits per
byte, high nibble first, no separator; the empty string on a nil slice. -/
def fmtHex : GoString → GoString
  | [] => []
  | b :: rest => ldigits.getD (b.val / 16) 0 :: ldigits.getD (b.val % 16) 0 :: fmtHex rest

/-- The verb `%d` on a non-negative integer: its decimal digits. -/
def fmtDecimal (n : Nat) : GoString :=
  (Nat.toDigits 10 n).map (fun c => Fin.ofNat c.toNat)

end fmt

/-! ## `unique/version.go` -/

namespace unique

def major : Nat := 18
def minor : Nat := 12
def patch : Nat := 21

/-- The function `Version`: `fmt.Sprintf("%d.%d.%d", major, minor, patch)`. -/
def Version : GoString :=
  fmt.fmtDecimal major ++ ascii "." ++ fmt.fmtDecimal minor ++ ascii "." ++ fmt.fmtDecimal patch

end unique

/-! ## `tcp/unique-tcp.go` -/

/-- A non-nil Go `error`; the nil error is `none` of `Option GoError`. -/
inductive GoError
  | deadlineExceeded
  | eof
  | other (text : GoString)
  deriving DecidableEq, Repr

/-- The generator functions of package `unique` that the command table names
and whose bodies lie outside this development.  They read clocks, counters and
entropy, so each one takes the state of the generator library and returns its
result together with the next state. -/
structure Generators (σ : Type) where
  CreateUUID : σ → GoString × σ
  CreateULID : σ → GoString × σ
  CreateGUID : σ → GoString × σ
  CreateTSID : σ → GoString × σ
  CreateTXID : σ → GoString × σ
  CreateCUID : σ → GoString × σ
  CreateXUID : σ → GoString × σ
  RandomBytes : Nat → σ → (GoString × Option GoError) × σ

/-- The receive buffer `[64]byte`. -/
abbrev Buffer := { l : List Byte // l.length = 64 }

/-- The value a Go `int` of 64 bits holds for the exact result `x` of an
addition: the two's-complement representative of `x` in `-2^63 .. 2^63 - 1`. -/
def wrapInt (x : Int) : Int :=
  (x + 9223372036854775808) % 18446744073709551616 - 9223372036854775808

/-- The struct `Client`: the id, timeout, request count and receive buffer.
`Requests` is a Go `int`: every value stored in it is first wrapped to 64
bits by `wrapInt`. -/
structure Client where
  id : GoString
  IdleTimeout : Int
  Requests : Int
  buffer : Buffer
  deriving DecidableEq

/-- The composite literal `Client{id: ..., IdleTimeout: ...}` of `main`: the
other fields hold their zero values. -/
def newClient (id : GoString) (idleTimeout : Int) : Client :=
  { id := id, IdleTimeout := idleTimeout, Requests := 0,
    buffer := ⟨List.replicate 64 0, by simp⟩ }

/-- A nullary `func() string` of the command table, run against the state of
the generator library. -/
abbrev Command (σ : Type) := σ → GoString × σ

/-- The function `bytes`: the default bytes calculation, `%x` of 24 random bytes; the error
of `RandomBytes` is dropped. -/
def bytes {σ : Type} (g : Generators σ) : Command σ := fun s =>
  let rb := g.RandomBytes 24 s
  (fmt.fmtHex rb.1.1, rb.2)

/-- The type `CommandMap`, a map of recognized commands: `map[string]func() string`,
kept as the list of its entries, whose keys are distinct. -/
abbrev CommandMap (σ : Type) := List (GoString × Command σ)

/-- The variable `commands`: the map of recognized commands, in source order. -/
def commands {σ : Type} (g : Generators σ) : CommandMap σ :=
  [ (ascii "ping", fun s => (ascii "pong", s)),
    (ascii "noop", fun s => (ascii "ok", s)),
    (ascii "version", fun s => (unique.Version, s)),
    (ascii "uuid", g.CreateUUID),
    (ascii "ulid", g.CreateULID),
    (ascii "guid", g.CreateGUID),
    (ascii "tsid", g.CreateTSID),
    (ascii "txid", g.CreateTXID),
    (ascii "cuid", g.CreateCUID),
    (ascii "xuid", g.CreateXUID),
    (ascii "bytes", bytes g) ]

/-- What one call `conn.Read(buf)` delivers: the bytes it stores and the
error it returns.  The connections the server accepts are TCP connections, on
which a read of zero bytes comes with the error `io.EOF`; a statement that
relies on this carries it as a hypothesis. -/
structure ReadResult where
  data : GoString
  err : Option GoError
  deriving DecidableEq

/-- The call `conn.Read(buf)` on the 64-byte buffer: it stores `n` bytes, never
more than the buffer holds, at the front of the buffer, leaves the rest of the
buffer as it was, and returns `n` and the error. -/
def connRead (buf : Buffer) (r : ReadResult) : Buffer × Nat × Option GoError :=
  let n := min r.data.length 64
  (⟨r.data.take n ++ buf.val.drop n, by
      have h := buf.property
      simp only [List.length_append, List.length_take, List.length_drop, h]
      omega⟩, n, r.err)

/-- How the `select` of one `readRequest` call is resolved.
`completed r`: the read goroutine finished with `r` and `<-complete` was taken.
`deadline late`: `<-ctx.Done()` was taken; `late` is `some r` when the read
goroutine had already run to its end with `r`, and `none` when it is still
blocked in `conn.Read`. -/
inductive ReadEvent
  | completed (r : ReadResult)
  | deadline (late : Option ReadResult)
  deriving DecidableEq

/-- What `readRequest` hands back: its two results and the client it ran on. -/
structure ReadOutcome where
  request : GoString
  err : Option GoError
  cli : Client
  deriving DecidableEq

/-- The body of the goroutine of `readRequest`, run to its end: the read into
the buffer, the assignment of `response` when the read brought bytes and no
error, and `cli.Requests++` in the arithmetic of `int`.  The result carries the variables `response` and
`err` and the updated client. -/
def readGoroutine (cli : Client) (r : ReadResult) : ReadOutcome :=
  let rd := connRead cli.buffer r
  let ccount := rd.2.1
  let err := rd.2.2
  let response : GoString :=
    if err = none ∧ ccount > 0 then strings.TrimSpace (rd.1.val.take ccount) else []
  { request := response, err := err,
    cli := { cli with buffer := rd.1, Requests := wrapInt (cli.Requests + 1) } }

/-- The method `readRequest`: one read raced against the idle timeout. -/
def readRequest (cli : Client) : ReadEvent → ReadOutcome
  | .completed r => readGoroutine cli r
  | .deadline none => { request := [], err := some .deadlineExceeded, cli := cli }
  | .deadline (some r) => { readGoroutine cli r with err := some .deadlineExceeded }

/-- A method call the handler makes on its connection. -/
inductive ConnCall
  | Read
  | Write (p : GoString)
  | RemoteAddr
  | Close
  deriving DecidableEq

/-- The dispatch step of `handleClient`: the map lookup, then either the call
of the command found or the response `"error"`. -/
def dispatch {σ : Type} (g : Generators σ) (request : GoString) (s : σ) : GoString × σ :=
  match (commands g).lookup request with
  | some cmd => cmd s
  | none => (ascii "error", s)

/-- The line the deferred function prints:
`"closing connection from %v, id: %s\n"`. -/
def closingLine (remote id : GoString) : GoString :=
  ascii "closing connection from " ++ remote ++ ascii ", id: " ++ id ++ ascii "\n"

/-- The state of one `handleClient` call after a script of read events: the
handler's client, the generator state, the calls made on the connection in
order, the text printed, and whether the handler has returned. -/
structure Run (σ : Type) where
  cli : Client
  gen : σ
  calls : List ConnCall
  stdout : GoString
  returned : Bool

/-- The method `handleClient`, run against a script of read events; `remote` is the text
`%v` prints for `conn.RemoteAddr()`.  Every `readRequest` starts one
`conn.Read`; a failed read leaves the loop and runs the deferred function; the
events after it are never consumed.  At the end of the script the handler is
back at the head of its loop. -/
def handleClient {σ : Type} (g : Generators σ) (remote : GoString) :
    Client → σ → List ReadEvent → Run σ
  | cli, s, [] => { cli := cli, gen := s, calls := [], stdout := [], returned := false }
  | cli, s, ev :: rest =>
    let r := readRequest cli ev
    match r.err with
    | some _ =>
      { cli := r.cli, gen := s, calls := [.Read, .RemoteAddr, .Close],
        stdout := closingLine remote r.cli.id, returned := true }
    | none =>
      let d := dispatch g r.request s
      let run := handleClient g remote r.cli d.2 rest
      { run with calls := .Read :: .Write (d.1 ++ ascii "\n\r") :: run.calls }

/-- A deterministic stand-in for the generator library, to run the handler on
concrete scripts: the state is a call counter, every identifier is a fixed
text, and `RandomBytes n` returns `n` copies of the counter's low byte. -/
def sampleGenerators : Generators Nat where
  CreateUUID := fun n => (ascii "uuid-0", n + 1)
  CreateULID := fun n => (ascii "ulid-0", n + 1)
  CreateGUID := fun n => (ascii "guid-0", n + 1)
  CreateTSID := fun n => (ascii "tsid-0", n + 1)
  CreateTXID := fun n => (ascii "txid-0", n + 1)
  CreateCUID := fun n => (ascii "cuid-0", n + 1)
  CreateXUID := fun n => (ascii "xuid-0", n + 1)
  RandomBytes := fun k n => ((List.replicate k (Fin.ofNat (n + 171)), none), n + 1)

/-- A generator library whose `RandomBytes` fails: it returns no bytes and an
error. -/
def failingGenerators : Generators Nat :=
  { sampleGenerators with
    RandomBytes := fun _ n => (([], some (GoError.other (ascii "entropy"))), n + 1) }

/-! ## Vocabulary for statements about runs -/

/-- The script of successful reads that deliver the chunks `ds` in order: each
`conn.Read` returns the chunk and a nil error before the deadline. -/
def okReads (ds : List GoString) : List ReadEvent :=
  ds.map (fun d => ReadEvent.completed { data := d, err := none })

/-- The responses to the requests `reqs` dispatched one after another, each on
the generator state the one before left, and the final generator state. -/
def responsesTo {σ : Type} (g : Generators σ) : σ → List GoString → List GoString × σ
  | s, [] => ([], s)
  | s, req :: reqs =>
    let d := dispatch g req s
    let rest := responsesTo g d.2 reqs
    (d.1 :: rest.1, rest.2)

/-- The byte strings passed to `conn.Write`, in call order. -/
def writes (calls : List ConnCall) : List GoString :=
  calls.filterMap (fun c => match c with
    | ConnCall.Write p => some p
    | _ => none)

/-- The handler's client after the successful reads of the chunks `ds`. -/
def clientAfter (cli : Client) : List GoString → Client
  | [] => cli
  | d :: ds =>
    clientAfter (readRequest cli (ReadEvent.completed { data := d, err := none })).cli ds

/-- The calls of one loop iteration that answers `response`: the read, then
the write of the response and the two terminator bytes LF, CR. -/
def iteration (response : GoString) : List ConnCall :=
  [ConnCall.Read, ConnCall.Write (response ++ [0x0A, 0x0D])]

/-! ## Lemmas on trimming ASCII text -/

theorem decodeRune_ascii (b : Byte) (t : GoString) (hb : b.val < 128) :
    utf8.DecodeRuneInString (b :: t) = (b.val, 1) := by
  simp [utf8.DecodeRuneInString, utf8.RuneSelf, hb]

theorem decodeLastRune_ascii (s : GoString) (b : Byte) (hb : b.val < 128) :
    utf8.DecodeLastRuneInString (s ++ [b]) = (b.val, 1) := by
  simp [utf8.DecodeLastRuneInString, List.getLast?_concat, utf8.RuneSelf, hb]

theorem indexFuncLoop_skip (w t : GoString) (i : Nat)
    (hw : ∀ b ∈ w, b.val < 128 ∧ unicode.IsSpace b.val = true) :
    strings.indexFuncLoop unicode.IsSpace false (w ++ t) i 0
      = strings.indexFuncLoop unicode.IsSpace false t (i + w.length) 0 := by
  induction w generalizing i with
  | nil => simp
  | cons b w ih =>
    have hb := hw b (List.mem_cons_self _ _)
    have hw' : ∀ c ∈ w, c.val < 128 ∧ unicode.IsSpace c.val = true :=
      fun c hc => hw c (List.mem_cons_of_mem _ hc)
    rw [List.cons_append, strings.indexFuncLoop, decodeRune_ascii b _ hb.1]
    simp only [hb.2, Nat.sub_self]
    rw [ih (i + 1) hw', List.length_cons,
      show i + 1 + w.length = i + (w.length + 1) by omega]
    simp

theorem indexFuncLoop_stop (b : Byte) (t : GoString) (i : Nat)
    (hb : b.val < 128) (hns : unicode.IsSpace b.val = false) :
    strings.indexFuncLoop unicode.IsSpace false (b :: t) i 0 = some i := by
  rw [strings.indexFuncLoop, decodeRune_ascii b _ hb]
  simp [hns]

theorem trimLeft_pad (w t : GoString) (b : Byte)
    (hw : ∀ b ∈ w, b.val < 128 ∧ unicode.IsSpace b.val = true)
    (hb : b.val < 128) (hns : unicode.IsSpace b.val = false) :
    strings.TrimLeftFunc (w ++ b :: t) unicode.IsSpace = b :: t := by
  simp [strings.TrimLeftFunc, strings.indexFunc, indexFuncLoop_skip w (b :: t) 0 hw,
    indexFuncLoop_stop b t _ hb hns]

theorem lastIndexFuncLoop_skip (s w : GoString)
    (hw : ∀ b ∈ w, b.val < 128 ∧ unicode.IsSpace b.val = true) :
    strings.lastIndexFuncLoop unicode.IsSpace false (s ++ w) (s.length + w.length) 0
      = strings.lastIndexFuncLoop unicode.IsSpace false (s ++ w) s.length 0 := by
  induction w generalizing s with
  | nil => simp
  | cons b w ih =>
    have hb := hw b (List.mem_cons_self _ _)
    have hw' : ∀ c ∈ w, c.val < 128 ∧ unicode.IsSpace c.val = true :=
      fun c hc => hw c (List.mem_cons_of_mem _ hc)
    have e : s ++ b :: w = (s ++ [b]) ++ w := by simp
    have hl : s.length + (b :: w).length = (s ++ [b]).length + w.length := by
      simp; omega
    rw [e, hl, ih (s ++ [b]) hw']
    have hl2 : (s ++ [b]).length = s.length + 1 := by simp
    rw [hl2, strings.lastIndexFuncLoop]
    have ht : ((s ++ [b]) ++ w).take (s.length + 1) = s ++ [b] :=
      List.take_left' hl2
    rw [ht, decodeLastRune_ascii s b hb.1]
    simp [hb.2]

theorem trimRight_pad (s w : GoString) (c : Byte)
    (hw : ∀ b ∈ w, b.val < 128 ∧ unicode.IsSpace b.val = true)
    (hc : c.val < 128) (hns : unicode.IsSpace c.val = false) :
    strings.TrimRightFunc (s ++ [c] ++ w) unicode.IsSpace = s ++ [c] := by
  have hl2 : (s ++ [c]).length = s.length + 1 := by simp
  have ht : ((s ++ [c]) ++ w).take (s.length + 1) = s ++ [c] := List.take_left' hl2
  have h1 : strings.lastIndexFunc (s ++ [c] ++ w) unicode.IsSpace false = some s.length := by
    unfold strings.lastIndexFunc
    rw [List.length_append, lastIndexFuncLoop_skip (s ++ [c]) w hw, hl2,
      strings.lastIndexFuncLoop, ht, decodeLastRune_ascii s c hc]
    simp [hns]
  have hg : (s ++ [c] ++ w).getD s.length 0 = c := by
    rw [List.getD_eq_getElem?_getD, List.append_assoc,
      List.getElem?_append_right (Nat.le_refl _)]
    simp
  unfold strings.TrimRightFunc
  rw [h1]
  simp only [hg, utf8.RuneSelf]
  rw [if_neg (by omega), ht]

theorem asciiSpace_of_mem : ∀ b ∈ ascii " \t\r\n", b.val < 128 ∧ unicode.IsSpace b.val = true := by
  decide

theorem trimSpace_pad (w1 t w2 : GoString)
    (hw1 : ∀ b ∈ w1, b.val < 128 ∧ unicode.IsSpace b.val = true)
    (hw2 : ∀ b ∈ w2, b.val < 128 ∧ unicode.IsSpace b.val = true)
    (hfirst : ∃ b ∈ t.head?, b.val < 128 ∧ unicode.IsSpace b.val = false)
    (hlast : ∃ c ∈ t.getLast?, c.val < 128 ∧ unicode.IsSpace c.val = false) :
    strings.TrimSpace (w1 ++ t ++ w2) = t := by
  obtain ⟨b, hb, hb1, hb2⟩ := hfirst
  obtain ⟨c, hc, hc1, hc2⟩ := hlast
  obtain ⟨m, hm⟩ := List.head?_eq_some_iff.mp hb
  obtain ⟨m', hm'⟩ := List.getLast?_eq_some_iff.mp hc
  have e1 : w1 ++ t ++ w2 = w1 ++ b :: (m ++ w2) := by simp [hm]
  have e2 : b :: (m ++ w2) = m' ++ [c] ++ w2 := by
    rw [← hm']; simp [hm]
  unfold strings.TrimSpace strings.TrimFunc
  rw [e1, trimLeft_pad w1 _ b hw1 hb1 hb2, e2, trimRight_pad m' w2 c hw2 hc1 hc2, hm']

theorem keyword_ends : ∀ k ∈ [ascii "ping", ascii "noop", ascii "version", ascii "uuid",
      ascii "ulid", ascii "guid", ascii "tsid", ascii "txid", ascii "cuid", ascii "xuid",
      ascii "bytes"],
    (∃ b ∈ k.head?, b.val < 128 ∧ unicode.IsSpace b.val = false) ∧
    (∃ c ∈ k.getLast?, c.val < 128 ∧ unicode.IsSpace c.val = false) := by
  decide

/-! ## Lemmas on the read and on runs of the handler -/

theorem trimSpace_nil : strings.TrimSpace [] = [] := by decide

theorem readGoroutine_err (cli : Client) (r : ReadResult) :
    (readGoroutine cli r).err = r.err := rfl

theorem readGoroutine_requests (cli : Client) (r : ReadResult) :
    (readGoroutine cli r).cli.Requests = wrapInt (cli.Requests + 1) := rfl

theorem readGoroutine_request (cli : Client) (r : ReadResult) :
    (readGoroutine cli r).request
      = if r.err = none then strings.TrimSpace (r.data.take 64) else [] := by
  have hb := cli.buffer.property
  have htake : (r.data.take (min r.data.length 64) ++ cli.buffer.val.drop (min r.data.length 64)).take
      (min r.data.length 64) = r.data.take 64 := by
    rw [List.take_append_of_le_length (by simp), List.take_take, Nat.min_self]
    by_cases hl : r.data.length ≤ 64
    · rw [Nat.min_eq_left hl, List.take_of_length_le (Nat.le_refl _), List.take_of_length_le hl]
    · rw [Nat.min_eq_right (by omega)]
  simp only [readGoroutine, connRead]
  by_cases he : r.err = none
  · by_cases hn : min r.data.length 64 > 0
    · rw [if_pos ⟨he, hn⟩, if_pos he, htake]
    · rw [if_neg (fun h => hn h.2), if_pos he]
      have : r.data = [] := by
        cases hd : r.data with
        | nil => rfl
        | cons a t => rw [hd] at hn; simp at hn
      rw [this]
      exact trimSpace_nil.symm
  · rw [if_neg (fun h => he h.1), if_neg he]

theorem handleClient_ok_cons {σ : Type} (g : Generators σ) (remote : GoString) (cli : Client)
    (s : σ) (ev : ReadEvent) (rest : List ReadEvent) (h : (readRequest cli ev).err = none) :
    handleClient g remote cli s (ev :: rest)
      = { handleClient g remote (readRequest cli ev).cli
            (dispatch g (readRequest cli ev).request s).2 rest with
          calls := ConnCall.Read
            :: ConnCall.Write ((dispatch g (readRequest cli ev).request s).1 ++ ascii "\n\r")
            :: (handleClient g remote (readRequest cli ev).cli
                  (dispatch g (readRequest cli ev).request s).2 rest).calls } := by
  rw [handleClient]
  simp only [h]

theorem handleClient_fail_cons {σ : Type} (g : Generators σ) (remote : GoString) (cli : Client)
    (s : σ) (ev : ReadEvent) (rest : List ReadEvent) (h : (readRequest cli ev).err ≠ none) :
    handleClient g remote cli s (ev :: rest)
      = { cli := (readRequest cli ev).cli, gen := s,
          calls := [ConnCall.Read, ConnCall.RemoteAddr, ConnCall.Close],
          stdout := closingLine remote (readRequest cli ev).cli.id, returned := true } := by
  rw [handleClient]
  cases he : (readRequest cli ev).err with
  | none => exact absurd he h
  | some e => rfl

theorem okRead_request (cli : Client) (d : GoString) :
    (readRequest cli (ReadEvent.completed { data := d, err := none })).request
      = strings.TrimSpace (d.take 64) := by
  show (readGoroutine cli _).request = _
  rw [readGoroutine_request]
  simp

theorem handleClient_okReads_append {σ : Type} (g : Generators σ) (remote : GoString)
    (ds : List GoString) (cli : Client) (s : σ) (evs : List ReadEvent) :
    handleClient g remote cli s (okReads ds ++ evs)
      = { handleClient g remote (clientAfter cli ds)
            (responsesTo g s (ds.map (fun d => strings.TrimSpace (d.take 64)))).2 evs with
          calls := (responsesTo g s (ds.map (fun d => strings.TrimSpace (d.take 64)))).1.flatMap
              iteration
            ++ (handleClient g remote (clientAfter cli ds)
                (responsesTo g s (ds.map (fun d => strings.TrimSpace (d.take 64)))).2 evs).calls } := by
  induction ds generalizing cli s with
  | nil => simp [okReads, responsesTo, clientAfter]
  | cons d ds ih =>
    have hok : (readRequest cli (ReadEvent.completed { data := d, err := none })).err = none := rfl
    have e : okReads (d :: ds) ++ evs
        = ReadEvent.completed { data := d, err := none } :: (okReads ds ++ evs) := rfl
    rw [e, handleClient_ok_cons g remote cli s _ _ hok, ih, okRead_request]
    simp only [List.map_cons, responsesTo, clientAfter, List.flatMap_cons, iteration]
    rfl

theorem wrapInt_of_range (x : Int) (hlo : -9223372036854775808 ≤ x)
    (hhi : x ≤ 9223372036854775807) : wrapInt x = x := by
  unfold wrapInt
  omega

theorem wrapInt_max : wrapInt (9223372036854775807 + 1) = -9223372036854775808 := by
  decide

theorem clientAfter_requests (cli : Client) (ds : List GoString)
    (hlo : 0 ≤ cli.Requests) (hhi : cli.Requests + ds.length ≤ 9223372036854775807) :
    (clientAfter cli ds).Requests = cli.Requests + ds.length := by
  induction ds generalizing cli with
  | nil => simp [clientAfter]
  | cons d ds ih =>
    simp only [List.length_cons] at hhi
    push_cast at hhi
    have hstep : (readRequest cli (ReadEvent.completed { data := d, err := none })).cli.Requests
        = cli.Requests + 1 := by
      show wrapInt (cli.Requests + 1) = _
      exact wrapInt_of_range _ (by omega) (by omega)
    rw [clientAfter, ih _ (by rw [hstep]; omega) (by rw [hstep]; omega), hstep]
    simp only [List.length_cons]
    push_cast
    omega

/-! ## Lemmas on the command table and on `%x` -/

theorem lookup_none_of_not_keyword {σ : Type} (g : Generators σ) (request : GoString)
    (h : request ∉ [ascii "ping", ascii "noop", ascii "version", ascii "uuid", ascii "ulid",
      ascii "guid", ascii "tsid", ascii "txid", ascii "cuid", ascii "xuid", ascii "bytes"]) :
    (commands g).lookup request = none := by
  simp only [List.mem_cons, List.mem_singleton, not_or, List.not_mem_nil, not_false_eq_true,
    and_true] at h
  obtain ⟨h1, h2, h3, h4, h5, h6, h7, h8, h9, h10, h11⟩ := h
  simp only [commands, List.lookup_cons, List.lookup_nil, beq_eq_false_iff_ne.mpr h1,
    beq_eq_false_iff_ne.mpr h2, beq_eq_false_iff_ne.mpr h3, beq_eq_false_iff_ne.mpr h4,
    beq_eq_false_iff_ne.mpr h5, beq_eq_false_iff_ne.mpr h6, beq_eq_false_iff_ne.mpr h7,
    beq_eq_false_iff_ne.mpr h8, beq_eq_false_iff_ne.mpr h9, beq_eq_false_iff_ne.mpr h10,
    beq_eq_false_iff_ne.mpr h11]

theorem dispatch_of_lookup_none {σ : Type} (g : Generators σ) (request : GoString) (s : σ)
    (h : (commands g).lookup request = none) :
    dispatch g request s = (ascii "error", s) := by
  unfold dispatch
  rw [h]

theorem fmtHex_length (b : GoString) : (fmt.fmtHex b).length = 2 * b.length := by
  induction b with
  | nil => rfl
  | cons x rest ih => simp only [fmt.fmtHex, List.length_cons, ih]; omega

theorem ldigits_getD : ∀ n < 16,
    fmt.ldigits.getD n 0 = Fin.ofNat (Nat.digitChar n).toNat ∧
    fmt.ldigits.getD n 0 ∈ ascii "0123456789abcdef" := by
  decide

theorem fmtHex_mem (b : GoString) : ∀ c ∈ fmt.fmtHex b, c ∈ ascii "0123456789abcdef" := by
  induction b with
  | nil => intro c hc; simp [fmt.fmtHex] at hc
  | cons x rest ih =>
    intro c hc
    simp only [fmt.fmtHex, List.mem_cons] at hc
    rcases hc with h | h | h
    · rw [h]; exact (ldigits_getD _ (by omega)).2
    · rw [h]; exact (ldigits_getD _ (by omega)).2
    · exact ih c h

theorem fmtHex_getElem (b : GoString) (i : Nat) (hi : i < b.length) :
    (fmt.fmtHex b)[2 * i]? = some (Fin.ofNat (Nat.digitChar (b[i].val / 16)).toNat) ∧
    (fmt.fmtHex b)[2 * i + 1]? = some (Fin.ofNat (Nat.digitChar (b[i].val % 16)).toNat) := by
  induction b generalizing i with
  | nil => simp at hi
  | cons x rest ih =>
    cases i with
    | zero =>
      simp only [fmt.fmtHex, Nat.mul_zero, List.getElem?_cons_zero, Nat.zero_add,
        List.getElem?_cons_succ, List.getElem_cons_zero]
      exact ⟨congrArg some (ldigits_getD _ (by omega)).1,
        congrArg some (ldigits_getD _ (by omega)).1⟩
    | succ j =>
      have hj : j < rest.length := by simpa using hi
      have e1 : 2 * (j + 1) = (2 * j + 1) + 1 := by omega
      rw [e1]
      simp only [fmt.fmtHex, List.getElem?_cons_succ, List.getElem_cons_succ]
      exact ih j hj

/-! ## Lemmas on whole runs -/

theorem writes_append (xs ys : List ConnCall) : writes (xs ++ ys) = writes xs ++ writes ys := by
  simp [writes]

theorem writes_iterations (rs : List GoString) :
    writes (rs.flatMap iteration) = rs.map (fun r => r ++ [0x0A, 0x0D]) := by
  induction rs with
  | nil => rfl
  | cons r rs ih =>
    rw [List.flatMap_cons, writes_append, ih]
    rfl

theorem count_close_iterations (rs : List GoString) :
    (rs.flatMap iteration).count ConnCall.Close = 0 := by
  induction rs with
  | nil => rfl
  | cons r rs ih =>
    rw [List.flatMap_cons, List.count_append, ih]
    simp [iteration, List.count_cons]

theorem responsesTo_length {σ : Type} (g : Generators σ) (s : σ) (reqs : List GoString) :
    (responsesTo g s reqs).1.length = reqs.length := by
  induction reqs generalizing s with
  | nil => rfl
  | cons r rs ih => simp [responsesTo, ih]

theorem responsesTo_getElem {σ : Type} (g : Generators σ) (s : σ) (reqs : List GoString)
    (i : Nat) (hi : i < reqs.length) :
    ∃ si, (responsesTo g s reqs).1[i]? = some (dispatch g reqs[i] si).1 := by
  induction reqs generalizing s i with
  | nil => simp at hi
  | cons r rs ih =>
    cases i with
    | zero => exact ⟨s, by simp [responsesTo]⟩
    | succ j =>
      have hj : j < rs.length := by simpa using hi
      obtain ⟨sj, hsj⟩ := ih (dispatch g r s).2 j hj
      exact ⟨sj, by simpa [responsesTo] using hsj⟩

theorem readRequest_id (cli : Client) (ev : ReadEvent) :
    (readRequest cli ev).cli.id = cli.id ∧ (readRequest cli ev).cli.IdleTimeout = cli.IdleTimeout := by
  cases ev with
  | completed r => exact ⟨rfl, rfl⟩
  | deadline late =>
    cases late with
    | none => exact ⟨rfl, rfl⟩
    | some r => exact ⟨rfl, rfl⟩

theorem clientAfter_id (cli : Client) (ds : List GoString) :
    (clientAfter cli ds).id = cli.id := by
  induction ds generalizing cli with
  | nil => rfl
  | cons d ds ih => rw [clientAfter, ih, (readRequest_id cli _).1]

theorem clientAfter_timeout (cli : Client) (ds : List GoString) :
    (clientAfter cli ds).IdleTimeout = cli.IdleTimeout := by
  induction ds generalizing cli with
  | nil => rfl
  | cons d ds ih => rw [clientAfter, ih, (readRequest_id cli _).2]

theorem handleClient_okReads {σ : Type} (g : Generators σ) (remote : GoString)
    (ds : List GoString) (cli : Client) (s : σ) :
    handleClient g remote cli s (okReads ds)
      = { cli := clientAfter cli ds,
          gen := (responsesTo g s (ds.map (fun d => strings.TrimSpace (d.take 64)))).2,
          calls := (responsesTo g s (ds.map (fun d => strings.TrimSpace (d.take 64)))).1.flatMap
            iteration,
          stdout := [], returned := false } := by
  have h := handleClient_okReads_append g remote ds cli s []
  rw [List.append_nil] at h
  rw [h]
  simp [handleClient]

theorem handleClient_okReads_fail {σ : Type} (g : Generators σ) (remote : GoString)
    (ds : List GoString) (cli : Client) (s : σ) (f : ReadEvent) (rest : List ReadEvent)
    (hf : ∀ c, (readRequest c f).err ≠ none) :
    handleClient g remote cli s (okReads ds ++ f :: rest)
      = { cli := (readRequest (clientAfter cli ds) f).cli,
          gen := (responsesTo g s (ds.map (fun d => strings.TrimSpace (d.take 64)))).2,
          calls := (responsesTo g s (ds.map (fun d => strings.TrimSpace (d.take 64)))).1.flatMap
              iteration
            ++ [ConnCall.Read, ConnCall.RemoteAddr, ConnCall.Close],
          stdout := closingLine remote cli.id, returned := true } := by
  rw [handleClient_okReads_append, handleClient_fail_cons g remote _ _ f rest (hf _),
    (readRequest_id _ f).1, clientAfter_id]

/-! ## The claims -/

/-- C1: a request that is none of the eleven keys of the command table
(`ping`, `noop`, `version`, `uuid`, `ulid`, `guid`, `tsid`, `txid`, `cuid`,
`xuid`, `bytes`, which are all the keys there are) finds no command, so the
dispatch step answers `"error"` and leaves the generator library untouched;
the match is case-sensitive: `"PING"`, `"Ping"` and the empty string are
answered `"error"`. -/
theorem dispatch_unknown_command {σ : Type} (g : Generators σ) (request : GoString) (s : σ)
    (h : request ∉ [ascii "ping", ascii "noop", ascii "version", ascii "uuid", ascii "ulid",
      ascii "guid", ascii "tsid", ascii "txid", ascii "cuid", ascii "xuid", ascii "bytes"]) :
    (commands g).map Prod.fst
        = [ascii "ping", ascii "noop", ascii "version", ascii "uuid", ascii "ulid",
            ascii "guid", ascii "tsid", ascii "txid", ascii "cuid", ascii "xuid", ascii "bytes"]
      ∧ (commands g).lookup request = none
      ∧ dispatch g request s = (ascii "error", s)
      ∧ dispatch g (ascii "PING") s = (ascii "error", s)
      ∧ dispatch g (ascii "Ping") s = (ascii "error", s)
      ∧ dispatch g (ascii "") s = (ascii "error", s) := by
  have hl := lookup_none_of_not_keyword g request h
  exact ⟨rfl, hl, dispatch_of_lookup_none g request s hl, rfl, rfl, rfl⟩

/-- Witness of C1 on the request `"Bytes"`. -/
theorem dispatch_unknown_command_witness :
    ascii "Bytes" ∉ [ascii "ping", ascii "noop", ascii "version", ascii "uuid", ascii "ulid",
        ascii "guid", ascii "tsid", ascii "txid", ascii "cuid", ascii "xuid", ascii "bytes"]
      ∧ (commands sampleGenerators).lookup (ascii "Bytes") = none
      ∧ dispatch sampleGenerators (ascii "Bytes") 7 = (ascii "error", 7) :=
  ⟨by decide,
    (dispatch_unknown_command sampleGenerators (ascii "Bytes") 7 (by decide)).2.1,
    (dispatch_unknown_command sampleGenerators (ascii "Bytes") 7 (by decide)).2.2.1⟩

/-- C2: the keywords with a fixed result: `ping` is answered `pong`, `noop` is
answered `ok`, and `version` is answered `unique.Version()`, which is the text
`18.12.21`, the decimal major, minor and patch numbers separated by dots; none
of the three touches the generator library. -/
theorem dispatch_fixed_commands {σ : Type} (g : Generators σ) (s : σ) :
    dispatch g (ascii "ping") s = (ascii "pong", s)
      ∧ dispatch g (ascii "noop") s = (ascii "ok", s)
      ∧ dispatch g (ascii "version") s = (unique.Version, s)
      ∧ unique.Version = ascii "18.12.21"
      ∧ unique.Version
          = fmt.fmtDecimal 18 ++ ascii "." ++ fmt.fmtDecimal 12 ++ ascii "." ++ fmt.fmtDecimal 21 :=
  ⟨rfl, rfl, rfl, by decide, rfl⟩

/-- C10: the `bytes` command answers the `%x` rendering of the slice `b` that
`RandomBytes(24)` returns, whatever error comes with it: the response has
`2 * len(b)` characters, all of them in `0-9a-f`, the characters `2i` and
`2i+1` being the digits of the high and the low nibble of `b[i]`; 24 bytes give
48 characters, and no bytes give the empty response, not `"error"`. -/
theorem bytes_command_hex {σ : Type} (g : Generators σ) (s : σ) :
    (dispatch g (ascii "bytes") s).1 = fmt.fmtHex (g.RandomBytes 24 s).1.1
      ∧ (dispatch g (ascii "bytes") s).2 = (g.RandomBytes 24 s).2
      ∧ (dispatch g (ascii "bytes") s).1.length = 2 * (g.RandomBytes 24 s).1.1.length
      ∧ (∀ c ∈ (dispatch g (ascii "bytes") s).1, c ∈ ascii "0123456789abcdef")
      ∧ (∀ (i : Nat) (hi : i < (g.RandomBytes 24 s).1.1.length),
          (dispatch g (ascii "bytes") s).1[2 * i]?
              = some (Fin.ofNat (Nat.digitChar ((g.RandomBytes 24 s).1.1[i].val / 16)).toNat)
            ∧ (dispatch g (ascii "bytes") s).1[2 * i + 1]?
              = some (Fin.ofNat (Nat.digitChar ((g.RandomBytes 24 s).1.1[i].val % 16)).toNat))
      ∧ ((g.RandomBytes 24 s).1.1.length = 24 → (dispatch g (ascii "bytes") s).1.length = 48)
      ∧ ((g.RandomBytes 24 s).1.1 = [] →
          (dispatch g (ascii "bytes") s).1 = [] ∧ (dispatch g (ascii "bytes") s).1 ≠ ascii "error") := by
  have hd : dispatch g (ascii "bytes") s
      = (fmt.fmtHex (g.RandomBytes 24 s).1.1, (g.RandomBytes 24 s).2) := rfl
  rw [hd]
  refine ⟨rfl, rfl, fmtHex_length _, fmtHex_mem _, fun i hi => fmtHex_getElem _ i hi, ?_, ?_⟩
  · intro h24
    show (fmt.fmtHex _).length = 48
    rw [fmtHex_length, h24]
  · intro hnil
    show fmt.fmtHex _ = [] ∧ fmt.fmtHex _ ≠ ascii "error"
    rw [hnil]
    exact ⟨rfl, by decide⟩

/-- Witness of C10: 24 bytes `0xab` are answered by 48 characters, `"ab"`
repeated; a generator that fails with no bytes is answered by the empty
string. -/
theorem bytes_command_hex_witness :
    (sampleGenerators.RandomBytes 24 0).1.1.length = 24
      ∧ (dispatch sampleGenerators (ascii "bytes") 0).1.length = 48
      ∧ (dispatch sampleGenerators (ascii "bytes") 0).1
          = ascii "abababababababababababababababababababababababab"
      ∧ (failingGenerators.RandomBytes 24 0).1.1 = []
      ∧ (dispatch failingGenerators (ascii "bytes") 0).1 = [] :=
  ⟨by decide,
    (bytes_command_hex sampleGenerators 0).2.2.2.2.2.1 (by decide),
    by decide,
    by decide,
    ((bytes_command_hex failingGenerators 0).2.2.2.2.2.2 (by decide)).1⟩

/-- C3: white space around the text never changes the request.  For a
keyword, or any text `t` whose first and last bytes are ASCII and not white
space, and for pads `w1`, `w2` of spaces, tabs, CR and LF with `w1 + t + w2`
of at most 64 bytes, a successful read of `w1 + t + w2` yields exactly the
request `t`, as the read of `t` alone does, so the same command is
dispatched; the bytes of `t` between its ends, white space included, are all
kept. -/
theorem padded_read_request (cli : Client) (t w1 w2 : GoString)
    (ht : t ∈ [ascii "ping", ascii "noop", ascii "version", ascii "uuid", ascii "ulid",
          ascii "guid", ascii "tsid", ascii "txid", ascii "cuid", ascii "xuid", ascii "bytes"]
        ∨ ((∃ b ∈ t.head?, b.val < 128 ∧ unicode.IsSpace b.val = false)
            ∧ (∃ c ∈ t.getLast?, c.val < 128 ∧ unicode.IsSpace c.val = false)))
    (hw1 : ∀ b ∈ w1, b ∈ ascii " \t\r\n") (hw2 : ∀ b ∈ w2, b ∈ ascii " \t\r\n")
    (hlen : (w1 ++ t ++ w2).length ≤ 64) :
    (readRequest cli (ReadEvent.completed { data := w1 ++ t ++ w2, err := none })).err = none
      ∧ (readRequest cli (ReadEvent.completed { data := w1 ++ t ++ w2, err := none })).request = t
      ∧ (readRequest cli (ReadEvent.completed { data := t, err := none })).request = t
      ∧ (∀ (σ : Type) (g : Generators σ) (s : σ),
          dispatch g
              (readRequest cli (ReadEvent.completed { data := w1 ++ t ++ w2, err := none })).request s
            = dispatch g t s) := by
  have hends : (∃ b ∈ t.head?, b.val < 128 ∧ unicode.IsSpace b.val = false)
      ∧ (∃ c ∈ t.getLast?, c.val < 128 ∧ unicode.IsSpace c.val = false) := by
    rcases ht with hk | he
    · exact keyword_ends t hk
    · exact he
  have h1 : ∀ b ∈ w1, b.val < 128 ∧ unicode.IsSpace b.val = true :=
    fun b hb => asciiSpace_of_mem b (hw1 b hb)
  have h2 : ∀ b ∈ w2, b.val < 128 ∧ unicode.IsSpace b.val = true :=
    fun b hb => asciiSpace_of_mem b (hw2 b hb)
  have hpad : (readRequest cli
      (ReadEvent.completed { data := w1 ++ t ++ w2, err := none })).request = t := by
    rw [okRead_request, List.take_of_length_le hlen]
    exact trimSpace_pad w1 t w2 h1 h2 hends.1 hends.2
  have hlen' : t.length ≤ 64 := by
    simp only [List.length_append] at hlen
    omega
  have hbare : (readRequest cli (ReadEvent.completed { data := t, err := none })).request = t := by
    rw [okRead_request, List.take_of_length_le hlen']
    have := trimSpace_pad [] t [] (by simp) (by simp) hends.1 hends.2
    simpa using this
  refine ⟨rfl, hpad, hbare, ?_⟩
  intro σ g s
  rw [hpad]

/-- Witness of C3: the read `"  ping\r\n"` is the request `ping`, answered
`pong`; the read `" pi ng\n"` is the request `pi ng`, inner space kept. -/
theorem padded_read_request_witness :
    (readRequest (newClient (ascii "c1") 300000000000)
        (ReadEvent.completed { data := ascii "  " ++ ascii "ping" ++ ascii "\r\n", err := none })).request
        = ascii "ping"
      ∧ dispatch sampleGenerators
          (readRequest (newClient (ascii "c1") 300000000000)
            (ReadEvent.completed
              { data := ascii "  " ++ ascii "ping" ++ ascii "\r\n", err := none })).request 0
          = (ascii "pong", 0)
      ∧ (readRequest (newClient (ascii "c1") 300000000000)
          (ReadEvent.completed { data := ascii " " ++ ascii "pi ng" ++ ascii "\n", err := none })).request
        = ascii "pi ng" :=
  ⟨(padded_read_request (newClient (ascii "c1") 300000000000) (ascii "ping") (ascii "  ")
      (ascii "\r\n") (Or.inl (by decide)) (by decide) (by decide) (by decide)).2.1,
    ((padded_read_request (newClient (ascii "c1") 300000000000) (ascii "ping") (ascii "  ")
      (ascii "\r\n") (Or.inl (by decide)) (by decide) (by decide) (by decide)).2.2.2
        Nat sampleGenerators 0).trans (by decide),
    (padded_read_request (newClient (ascii "c1") 300000000000) (ascii "pi ng") (ascii " ")
      (ascii "\n") (Or.inr (by decide)) (by decide) (by decide) (by decide)).2.1⟩

/-- C4: after a successful read, the handler makes one write, and its bytes
are exactly the response chosen by dispatch followed by a line feed (0x0A) and
then a carriage return (0x0D): nothing before the response, nothing after the
carriage return. -/
theorem write_is_response_lf_cr {σ : Type} (g : Generators σ) (remote : GoString)
    (cli : Client) (s : σ) (ev : ReadEvent) (rest : List ReadEvent)
    (h : (readRequest cli ev).err = none) :
    (handleClient g remote cli s [ev]).calls
        = [ConnCall.Read,
            ConnCall.Write ((dispatch g (readRequest cli ev).request s).1 ++ [0x0A, 0x0D])]
      ∧ writes (handleClient g remote cli s [ev]).calls
        = [(dispatch g (readRequest cli ev).request s).1 ++ [0x0A, 0x0D]]
      ∧ (handleClient g remote cli s (ev :: rest)).calls
        = ConnCall.Read
            :: ConnCall.Write ((dispatch g (readRequest cli ev).request s).1 ++ [0x0A, 0x0D])
            :: (handleClient g remote (readRequest cli ev).cli
                  (dispatch g (readRequest cli ev).request s).2 rest).calls := by
  rw [handleClient_ok_cons g remote cli s ev [] h, handleClient_ok_cons g remote cli s ev rest h]
  exact ⟨rfl, rfl, rfl⟩

/-- Witness of C4: the read `"noop"` is answered by one write of the four bytes
`o`, `k`, LF, CR. -/
theorem write_is_response_lf_cr_witness :
    (readRequest (newClient (ascii "c1") 300000000000)
        (ReadEvent.completed { data := ascii "noop", err := none })).err = none
      ∧ writes (handleClient sampleGenerators (ascii "127.0.0.1:50000")
          (newClient (ascii "c1") 300000000000) 0
          [ReadEvent.completed { data := ascii "noop", err := none }]).calls
        = [[111, 107, 10, 13]] :=
  ⟨rfl,
    (write_is_response_lf_cr sampleGenerators (ascii "127.0.0.1:50000")
      (newClient (ascii "c1") 300000000000) 0
      (ReadEvent.completed { data := ascii "noop", err := none }) [] rfl).2.1.trans (by decide)⟩

/-- C5: on a connection that keeps the contract of a stream socket, where a
read that returns zero bytes returns an error (`io.EOF`), a read that
completes before the deadline is reported as a success exactly when it
returned at least one byte and no error, and the request is then the trimmed
text of the bytes read, at most 64; a read that returns zero bytes, or that
returns an error, is reported as a failure.  The error handed back is the
error of the read itself, and the request of a failed read is empty. -/
theorem readRequest_completed (cli : Client) (r : ReadResult)
    (hstream : r.data = [] → r.err ≠ none) :
    ((readRequest cli (ReadEvent.completed r)).err = none ↔ (0 < r.data.length ∧ r.err = none))
      ∧ ((readRequest cli (ReadEvent.completed r)).err = none →
          (readRequest cli (ReadEvent.completed r)).request = strings.TrimSpace (r.data.take 64))
      ∧ (r.data.length = 0 ∨ r.err ≠ none → (readRequest cli (ReadEvent.completed r)).err ≠ none)
      ∧ (r.data.length = 0 ∨ r.err ≠ none → (readRequest cli (ReadEvent.completed r)).request = [])
      ∧ (readRequest cli (ReadEvent.completed r)).err = r.err := by
  have hreq : (readRequest cli (ReadEvent.completed r)).request
      = if r.err = none then strings.TrimSpace (r.data.take 64) else [] :=
    readGoroutine_request cli r
  have herr : (readRequest cli (ReadEvent.completed r)).err = r.err := rfl
  have hfail : r.data.length = 0 ∨ r.err ≠ none → r.err ≠ none := by
    intro h
    rcases h with h0 | he
    · exact hstream (List.length_eq_zero.mp h0)
    · exact he
  refine ⟨?_, ?_, ?_, ?_, herr⟩
  · rw [herr]
    constructor
    · intro he
      refine ⟨?_, he⟩
      cases hd : r.data with
      | nil => exact absurd he (hstream hd)
      | cons a t => simp
    · exact fun h => h.2
  · intro he
    rw [herr] at he
    rw [hreq, if_pos he]
  · intro h
    rw [herr]
    exact hfail h
  · intro h
    rw [hreq, if_neg (hfail h)]

/-- Witness of C5: the read `" ping\n"` without error is the request `ping`; a
read of zero bytes with the error `io.EOF` is a failure with an empty
request. -/
theorem readRequest_completed_witness :
    (readRequest (newClient (ascii "c1") 300000000000)
        (ReadEvent.completed { data := ascii " ping\n", err := none })).request = ascii "ping"
      ∧ (readRequest (newClient (ascii "c1") 300000000000)
          (ReadEvent.completed { data := [], err := some GoError.eof })).err ≠ none
      ∧ (readRequest (newClient (ascii "c1") 300000000000)
          (ReadEvent.completed { data := [], err := some GoError.eof })).request = [] :=
  ⟨((readRequest_completed (newClient (ascii "c1") 300000000000)
      { data := ascii " ping\n", err := none } (fun h => absurd h (by decide))).2.1 rfl).trans
      (by decide),
    (readRequest_completed (newClient (ascii "c1") 300000000000)
      { data := [], err := some GoError.eof } (fun _ => by decide)).2.2.1 (Or.inl rfl),
    (readRequest_completed (newClient (ascii "c1") 300000000000)
      { data := [], err := some GoError.eof } (fun _ => by decide)).2.2.2.1 (Or.inl rfl)⟩

/-- C6: when a timed read fails, by the deadline or by an error of the read,
after any number of answered reads, the handler writes nothing for it: the
calls it has made are those of the answered reads followed by the failed read,
`RemoteAddr` for the closing line, and one `Close`, which is the last call and
the only `Close`; the handler has returned, and the events after the failure
play no part.  A client that sends nothing until the deadline gets no write at
all, only the close. -/
theorem failed_read_closes {σ : Type} (g : Generators σ) (remote : GoString) (cli : Client)
    (s : σ) (ds : List GoString) (f : ReadEvent) (rest : List ReadEvent)
    (hf : ∀ c, (readRequest c f).err ≠ none) :
    (handleClient g remote cli s (okReads ds)).returned = false
      ∧ (handleClient g remote cli s (okReads ds ++ f :: rest)).calls
        = (handleClient g remote cli s (okReads ds)).calls
            ++ [ConnCall.Read, ConnCall.RemoteAddr, ConnCall.Close]
      ∧ writes (handleClient g remote cli s (okReads ds ++ f :: rest)).calls
        = writes (handleClient g remote cli s (okReads ds)).calls
      ∧ (writes (handleClient g remote cli s (okReads ds ++ f :: rest)).calls).length = ds.length
      ∧ (handleClient g remote cli s (okReads ds ++ f :: rest)).calls.count ConnCall.Close = 1
      ∧ (handleClient g remote cli s (okReads ds ++ f :: rest)).calls.getLast?
        = some ConnCall.Close
      ∧ (handleClient g remote cli s (okReads ds ++ f :: rest)).returned = true
      ∧ (handleClient g remote cli s (okReads ds ++ f :: rest)).stdout = closingLine remote cli.id
      ∧ (handleClient g remote cli s (okReads ds ++ f :: rest)).calls
        = (handleClient g remote cli s (okReads ds ++ [f])).calls
      ∧ (handleClient g remote cli s (ReadEvent.deadline none :: rest)).calls
        = [ConnCall.Read, ConnCall.RemoteAddr, ConnCall.Close]
      ∧ writes (handleClient g remote cli s (ReadEvent.deadline none :: rest)).calls = [] := by
  have hd : ∀ c, (readRequest c (ReadEvent.deadline none)).err ≠ none :=
    fun c h => by cases h
  rw [handleClient_okReads_fail g remote ds cli s f rest hf,
    handleClient_okReads_fail g remote ds cli s f [] hf, handleClient_okReads g remote ds cli s,
    handleClient_fail_cons g remote cli s _ rest (hd cli)]
  refine ⟨rfl, rfl, ?_, ?_, ?_, ?_, rfl, rfl, rfl, rfl, rfl⟩
  · simp only [writes_append]
    exact List.append_nil _
  · simp only [writes_append, writes_iterations, List.length_append, List.length_map,
      responsesTo_length]
    rfl
  · rw [List.count_append, count_close_iterations]
    rfl
  · rw [List.getLast?_append]
    rfl

/-- Witness of C6: `ping` is answered, then the deadline passes: one write,
then the read that fails, `RemoteAddr` and `Close`; the later `noop` is never
read. -/
theorem failed_read_closes_witness :
    (∀ c, (readRequest c (ReadEvent.deadline none)).err ≠ none)
      ∧ (handleClient sampleGenerators (ascii "127.0.0.1:50000")
          (newClient (ascii "c1") 300000000000) 0
          (okReads [ascii "ping"] ++ ReadEvent.deadline none
            :: [ReadEvent.completed { data := ascii "noop", err := none }])).calls
        = [ConnCall.Read, ConnCall.Write (ascii "pong\n\r"), ConnCall.Read, ConnCall.RemoteAddr,
            ConnCall.Close] :=
  ⟨(fun c h => by cases h),
    (failed_read_closes sampleGenerators (ascii "127.0.0.1:50000")
      (newClient (ascii "c1") 300000000000) 0 [ascii "ping"] (ReadEvent.deadline none)
      [ReadEvent.completed { data := ascii "noop", err := none }]
      (fun c h => by cases h)).2.1.trans (by decide)⟩

/-- C7: an unknown command does not end the session, and the responses come
in request order.  For successful reads of the chunks `ds` followed by one
failed read, the handler makes, for each chunk in turn, the read and then the
write of the framed dispatch result of that chunk's request, recognized or
not, and only then the failed read, `RemoteAddr` and `Close`: exactly
`len(ds)` writes, the `i`-th being the response to the `i`-th request followed
by LF, CR. -/
theorem responses_in_request_order {σ : Type} (g : Generators σ) (remote : GoString)
    (cli : Client) (s : σ) (ds : List GoString) (f : ReadEvent) (rest : List ReadEvent)
    (hf : ∀ c, (readRequest c f).err ≠ none) :
    (handleClient g remote cli s (okReads ds ++ f :: rest)).calls
        = (responsesTo g s (ds.map (fun d => strings.TrimSpace (d.take 64)))).1.flatMap
              (fun r => [ConnCall.Read, ConnCall.Write (r ++ [0x0A, 0x0D])])
            ++ [ConnCall.Read, ConnCall.RemoteAddr, ConnCall.Close]
      ∧ writes (handleClient g remote cli s (okReads ds ++ f :: rest)).calls
        = (responsesTo g s (ds.map (fun d => strings.TrimSpace (d.take 64)))).1.map
            (fun r => r ++ [0x0A, 0x0D])
      ∧ (writes (handleClient g remote cli s (okReads ds ++ f :: rest)).calls).length = ds.length
      ∧ (∀ (i : Nat) (hi : i < ds.length), ∃ si,
          (writes (handleClient g remote cli s (okReads ds ++ f :: rest)).calls)[i]?
            = some ((dispatch g (strings.TrimSpace (ds[i].take 64)) si).1 ++ [0x0A, 0x0D]))
      ∧ (handleClient g remote cli s (okReads ds ++ f :: rest)).gen
        = (responsesTo g s (ds.map (fun d => strings.TrimSpace (d.take 64)))).2
      ∧ (handleClient g remote cli s (okReads ds ++ f :: rest)).returned = true := by
  rw [handleClient_okReads_fail g remote ds cli s f rest hf]
  have hw : writes ((responsesTo g s (ds.map (fun d => strings.TrimSpace (d.take 64)))).1.flatMap
        iteration ++ [ConnCall.Read, ConnCall.RemoteAddr, ConnCall.Close])
      = (responsesTo g s (ds.map (fun d => strings.TrimSpace (d.take 64)))).1.map
          (fun r => r ++ [0x0A, 0x0D]) := by
    rw [writes_append, writes_iterations]
    exact List.append_nil _
  refine ⟨rfl, hw, ?_, ?_, rfl, rfl⟩
  · show (writes _).length = _
    rw [hw, List.length_map, responsesTo_length, List.length_map]
  · intro i hi
    have hi' : i < (ds.map (fun d => strings.TrimSpace (d.take 64))).length := by
      simpa using hi
    obtain ⟨si, hsi⟩ := responsesTo_getElem g s _ i hi'
    refine ⟨si, ?_⟩
    show (writes _)[i]? = _
    rw [hw, List.getElem?_map, hsi]
    simp

/-- Witness of C7: the reads `ping`, `bogus` and then a timeout give the
writes `"pong\n\r"` and `"error\n\r"`, each after its read, and then the
close. -/
theorem responses_in_request_order_witness :
    (∀ c, (readRequest c (ReadEvent.deadline none)).err ≠ none)
      ∧ (handleClient sampleGenerators (ascii "127.0.0.1:50000")
          (newClient (ascii "c1") 300000000000) 0
          (okReads [ascii "ping", ascii "bogus"] ++ ReadEvent.deadline none :: [])).calls
        = [ConnCall.Read, ConnCall.Write (ascii "pong\n\r"),
            ConnCall.Read, ConnCall.Write (ascii "error\n\r"),
            ConnCall.Read, ConnCall.RemoteAddr, ConnCall.Close] :=
  ⟨(fun c h => by cases h),
    (responses_in_request_order sampleGenerators (ascii "127.0.0.1:50000")
      (newClient (ascii "c1") 300000000000) 0 [ascii "ping", ascii "bogus"]
      (ReadEvent.deadline none) [] (fun c h => by cases h)).1.trans (by decide)⟩

/-- C8: the request count of the handler's client grows by exactly one per
read that returned from the connection, with data or with an error, and by
nothing else, as long as the count stays below the largest `int`.  After
`len(ds)` successful reads it is the start value plus `len(ds)`, so `len(ds)`
for a new client, which starts from 0; a further read that returns an error,
or that returned while the deadline was taken, adds one; a deadline with the
read still blocked adds none.  Dispatch and write leave the client as the read
left it, and the read changes neither the id nor the timeout. -/
theorem requests_counts_reads {σ : Type} (g : Generators σ) (remote : GoString)
    (cli : Client) (s : σ) (ds : List GoString) (rest : List ReadEvent)
    (d : GoString) (e : GoError) (late : ReadResult) (id : GoString) (timeout : Int)
    (hlo : 0 ≤ cli.Requests)
    (hhi : cli.Requests + ds.length + 1 ≤ 9223372036854775807) :
    (handleClient g remote cli s (okReads ds)).cli.Requests = cli.Requests + ds.length
      ∧ (handleClient g remote (newClient id timeout) s (okReads ds)).cli.Requests = ds.length
      ∧ (handleClient g remote cli s
          (okReads ds ++ ReadEvent.completed { data := d, err := some e } :: rest)).cli.Requests
        = cli.Requests + ds.length + 1
      ∧ (handleClient g remote cli s
          (okReads ds ++ ReadEvent.deadline (some late) :: rest)).cli.Requests
        = cli.Requests + ds.length + 1
      ∧ (handleClient g remote cli s (okReads ds ++ ReadEvent.deadline none :: rest)).cli.Requests
        = cli.Requests + ds.length
      ∧ (readRequest cli (ReadEvent.completed { data := d, err := none })).cli.Requests
        = cli.Requests + 1
      ∧ (readRequest cli (ReadEvent.completed { data := d, err := some e })).cli.Requests
        = cli.Requests + 1
      ∧ (handleClient g remote cli s [ReadEvent.completed { data := d, err := none }]).cli
        = (readRequest cli (ReadEvent.completed { data := d, err := none })).cli
      ∧ (handleClient g remote cli s (okReads ds)).cli.id = cli.id
      ∧ (handleClient g remote cli s (okReads ds)).cli.IdleTimeout = cli.IdleTimeout := by
  have h1 : ∀ c, (readRequest c (ReadEvent.completed { data := d, err := some e })).err ≠ none :=
    fun c h => by cases h
  have h2 : ∀ c, (readRequest c (ReadEvent.deadline (some late))).err ≠ none :=
    fun c h => by cases h
  have h3 : ∀ c, (readRequest c (ReadEvent.deadline none)).err ≠ none :=
    fun c h => by cases h
  have hlen : (0 : Int) ≤ ds.length := Int.ofNat_nonneg _
  have hafter : (clientAfter cli ds).Requests = cli.Requests + ds.length :=
    clientAfter_requests cli ds hlo (by omega)
  have hnew : (clientAfter (newClient id timeout) ds).Requests = ds.length := by
    have h := clientAfter_requests (newClient id timeout) ds (Int.le_refl 0)
      (by show (0 : Int) + _ ≤ _; omega)
    rw [h]
    show (0 : Int) + _ = _
    omega
  have hone : ∀ x : Int, 0 ≤ x → x + 1 ≤ 9223372036854775807 → wrapInt (x + 1) = x + 1 :=
    fun x h0 hx => wrapInt_of_range _ (by omega) hx
  rw [handleClient_okReads_fail g remote ds cli s _ rest h1,
    handleClient_okReads_fail g remote ds cli s _ rest h2,
    handleClient_okReads_fail g remote ds cli s _ rest h3,
    handleClient_okReads g remote ds cli s, handleClient_okReads g remote ds (newClient id timeout) s,
    handleClient_ok_cons g remote cli s
      (ReadEvent.completed { data := d, err := none }) [] rfl]
  refine ⟨hafter, hnew, ?_, ?_, hafter, ?_, ?_, rfl, clientAfter_id cli ds,
    clientAfter_timeout cli ds⟩
  · show wrapInt ((clientAfter cli ds).Requests + 1) = _
    rw [hafter]
    exact hone _ (by omega) (by omega)
  · show wrapInt ((clientAfter cli ds).Requests + 1) = _
    rw [hafter]
    exact hone _ (by omega) (by omega)
  · show wrapInt (cli.Requests + 1) = _
    exact hone _ hlo (by omega)
  · show wrapInt (cli.Requests + 1) = _
    exact hone _ hlo (by omega)

/-- Witness of C8: a new client that answers `ping` and `bogus` and then gets
a read with the error `io.EOF` has counted three reads; with a timeout in place
of the failed read it has counted two. -/
theorem requests_counts_reads_witness :
    (0 : Int) ≤ (newClient (ascii "c1") 300000000000).Requests
      ∧ (handleClient sampleGenerators (ascii "127.0.0.1:50000")
          (newClient (ascii "c1") 300000000000) 0
          (okReads [ascii "ping", ascii "bogus"]
            ++ ReadEvent.completed { data := [], err := some GoError.eof } :: [])).cli.Requests = 3
      ∧ (handleClient sampleGenerators (ascii "127.0.0.1:50000")
          (newClient (ascii "c1") 300000000000) 0
          (okReads [ascii "ping", ascii "bogus"] ++ ReadEvent.deadline none :: [])).cli.Requests
        = 2 :=
  ⟨by decide,
    (requests_counts_reads sampleGenerators (ascii "127.0.0.1:50000")
      (newClient (ascii "c1") 300000000000) 0 [ascii "ping", ascii "bogus"] []
      [] GoError.eof { data := [], err := none } (ascii "c1") 300000000000
      (by decide) (by decide)).2.2.1.trans (by decide),
    (requests_counts_reads sampleGenerators (ascii "127.0.0.1:50000")
      (newClient (ascii "c1") 300000000000) 0 [ascii "ping", ascii "bogus"] []
      [] GoError.eof { data := [], err := none } (ascii "c1") 300000000000
      (by decide) (by decide)).2.2.2.2.1.trans (by decide)⟩

/-- C9: each loop iteration dispatches on exactly one chunk and carries
nothing over.  The request of a successful read is the trimmed text of the
bytes that read returned, at most 64, whatever the client's buffer held
before, also after any earlier reads; so the calls of a run are fixed by the
chunks taken one by one.  The reads `pi`, `ng` are answered `error`, `error`;
the reads `version`, `ping` are answered with the version and `pong`, though
the buffer then holds `pingion`; the single read `"ping\nnoop"` is answered
with one `error`. -/
theorem one_chunk_per_iteration {σ : Type} (g : Generators σ) (remote : GoString)
    (cli other : Client) (s : σ) (ds : List GoString) (d id : GoString) (timeout : Int) :
    (readRequest cli (ReadEvent.completed { data := d, err := none })).request
        = strings.TrimSpace (d.take 64)
      ∧ (readRequest cli (ReadEvent.completed { data := d, err := none })).request
        = (readRequest other (ReadEvent.completed { data := d, err := none })).request
      ∧ (readRequest (clientAfter cli ds) (ReadEvent.completed { data := d, err := none })).request
        = strings.TrimSpace (d.take 64)
      ∧ (handleClient g remote cli s (okReads ds)).calls
        = (responsesTo g s (ds.map (fun d => strings.TrimSpace (d.take 64)))).1.flatMap
            (fun r => [ConnCall.Read, ConnCall.Write (r ++ [0x0A, 0x0D])])
      ∧ (handleClient g remote cli s (okReads [ascii "pi", ascii "ng"])).calls
        = [ConnCall.Read, ConnCall.Write (ascii "error\n\r"),
            ConnCall.Read, ConnCall.Write (ascii "error\n\r")]
      ∧ (handleClient g remote cli s (okReads [ascii "version", ascii "ping"])).calls
        = [ConnCall.Read, ConnCall.Write (ascii "18.12.21\n\r"),
            ConnCall.Read, ConnCall.Write (ascii "pong\n\r")]
      ∧ (clientAfter (newClient id timeout) [ascii "version", ascii "ping"]).buffer.val.take 7
        = ascii "pingion"
      ∧ (handleClient g remote cli s (okReads [ascii "ping\nnoop"])).calls
        = [ConnCall.Read, ConnCall.Write (ascii "error\n\r")] := by
  rw [okRead_request cli d, okRead_request other d, okRead_request (clientAfter cli ds) d,
    handleClient_okReads g remote ds cli s, handleClient_okReads g remote _ cli s,
    handleClient_okReads g remote _ cli s, handleClient_okReads g remote _ cli s]
  exact ⟨rfl, rfl, rfl, rfl, rfl, rfl, rfl, rfl⟩

end GoUnique
